import Mathlib

/-!
# Host harness of the wasm2native proof of concept (`adder-test.c`)

A shallow embedding of the host program: the packed descriptor decoding, the
logging bridge `ext_logging_log_version_1`, and `main` (module loading, symbol
resolution, guest initialisation, input placement, the validation call and the
read-back of the result).

Machine integers are natural numbers; every conversion to `uint32_t` is an
explicit `% 2 ^ 32`.  Behaviour that the C standard leaves undefined (reads and
writes outside the shared memory region, a read past the `levels` array,
overflow of the `int` loop counter) is the result `Exec.undefined`.

The guest is arbitrary code: an entry point is a function of the guest state
that yields the calls of the logging bridge it makes and, if it returns, the
state it leaves and its return value.  The host-side state `memory` is passed
explicitly.  A run of `main` is described by how it ends, the guest entry
points it invokes, its two output streams and the bytes it writes to `res.bin`.
-/

namespace Wasm2Native

/-! ## Bytes, the shared memory region, undefined behaviour -/

/-- One `unsigned char`. -/
abbrev Byte := Fin 256

/-- The code of an ASCII character, as the byte `putchar` writes for it. -/
def ascii (c : Char) : Byte := Fin.ofNat c.toNat

/-- The bytes of an ASCII text. -/
def bytes (s : String) : List Byte := s.toList.map ascii

/-- The guest's array behind the symbol `memory`: `size` bytes, the byte at
offset `i` being `byte i`.  Offsets at or past `size` are outside the array. -/
structure Region where
  size : Nat
  byte : Nat → Byte

/-- A region holding exactly the given bytes. -/
def Region.ofList (l : List Byte) : Region :=
  { size := l.length, byte := fun i => l.getD i 0 }

/-- The `len` bytes of the region from offset `off` on. -/
def Region.read (m : Region) (off len : Nat) : List Byte :=
  (List.range len).map (fun i => m.byte (off + i))

/-- The region with `data` stored from offset `off` on. -/
def Region.write (m : Region) (off : Nat) (data : List Byte) : Region :=
  { size := m.size
    byte := fun i => if off ≤ i then data.getD (i - off) (m.byte i) else m.byte i }

/-- Result of a piece of C code: a value, or undefined behaviour. -/
inductive Exec (α : Type) where
  | ok (a : α)
  | undefined
  deriving DecidableEq, Repr

/-! ## Packed descriptors -/

/-- `uint32_t len = (d >> 32);` for a `uint64_t d`. -/
def descLen (d : Nat) : Nat := (d >>> 32) % 2 ^ 32

/-- `d &= 0xFFFFFFFF;` for a `uint64_t d`. -/
def descOff (d : Nat) : Nat := d &&& 0xFFFFFFFF

/-- Both halves of a descriptor, offset first. -/
def decode (d : Nat) : Nat × Nat := (descOff d, descLen d)

/-! ## The logging bridge -/

/-- `static const char *levels = "0123456";` the seven severity symbols, followed
by the NUL that ends the string literal. -/
def levels : List Byte := bytes "0123456" ++ [0]

/-- `levels[level]`: a read at index 8 or more is outside the array. -/
def levelSymbol (level : Nat) : Exec Byte :=
  match levels.get? level with
  | some b => .ok b
  | none => .undefined

/-- Largest value of the `int` loop counter. -/
def INT_MAX : Nat := 2 ^ 31 - 1

/-- `for (int i = 0; i < len; i++) putchar(*(memory + p + i));` resumed at
counter value `i` with `n = len - i` iterations to go: the bytes written.  Each
iteration reads `memory[p + i]` and then increments the `int` counter. -/
def putRange (memory : Region) (p : Nat) : Nat → Nat → Exec (List Byte)
  | _, 0 => .ok []
  | i, n + 1 =>
    if p + i < memory.size then
      if i + 1 ≤ INT_MAX then
        match putRange memory p (i + 1) n with
        | .ok out => .ok (memory.byte (p + i) :: out)
        | .undefined => .undefined
      else .undefined
    else .undefined

/-- The host function the guest calls to log: the bytes written to standard
output, given the contents of the global `memory`. -/
def ext_logging_log_version_1 (memory : Region) (level target_p message_p : Nat) :
    Exec (List Byte) :=
  let target_len := descLen target_p
  let target_p := descOff target_p
  let message_len := descLen message_p
  let message_p := descOff message_p
  match levelSymbol level with
  | .undefined => .undefined
  | .ok symbol =>
    match putRange memory target_p 0 target_len with
    | .undefined => .undefined
    | .ok target =>
      match putRange memory message_p 0 message_len with
      | .undefined => .undefined
      | .ok message =>
        .ok ([ascii 'L', symbol, ascii ':', ascii ' ', ascii '['] ++ target ++
          [ascii ']', ascii ' '] ++ message ++ [ascii '\n'])

/-! ## The guest module and the environment of `main` -/

/-- What the guest owns: the array `memory`, the 64-bit word the host reads
through the pointer `heap_base` (`uint64_t *heap_base`), and whatever else the
guest keeps.  The word is kept apart from the array: copying the input into the
array does not change it. -/
structure GuestState (σ : Type) where
  memory : Region
  heap_base : Nat
  priv : σ

/-- One call of the logging bridge made by the guest, with the contents of the
shared memory at the time of the call. -/
structure LogCall where
  level : Nat
  target_p : Nat
  message_p : Nat
  memory : Region

/-- One execution of a guest entry point: the bridge calls it makes, in order,
and, when it returns, the guest state it leaves and the value it returns. -/
structure GuestRun (σ ρ : Type) where
  logs : List LogCall
  ret : Option (GuestState σ × ρ)

/-- The loaded `adder.so`: which names `dlsym` resolves (to a non-null address),
the guest state at load time, and the code behind the two entry points. -/
structure Module (σ : Type) where
  dlsym : String → Bool
  state : GuestState σ
  init_pvf : GuestState σ → GuestRun σ Unit
  validate_block : Nat → Nat → GuestState σ → GuestRun σ Nat

/-- Everything `main` depends on: the result of `dlopen("./adder.so")` (`none`
when it fails, `dlerror` then being the loader's text), the contents of
`data.bin` (`none` when it cannot be opened) and whether `res.bin` can be
opened for writing. -/
structure Env (σ : Type) where
  adder : Option (Module σ)
  dlerror : String
  data_bin : Option (List Byte)
  res_bin_writable : Bool

/-- How a run of `main` ends: `exit`/`return` with a code, undefined behaviour,
or never (a guest entry point does not return). -/
inductive Status where
  | exited (code : Nat)
  | undefined
  | blocked
  deriving DecidableEq, Repr

/-- A guest entry point being invoked; for `validate_block` with its two
arguments and the shared memory as it is at the call. -/
inductive GuestCall where
  | init_pvf
  | validate_block (offset length : Nat) (memory : Region)

/-- What a run of `main` does: how it ends, the guest entry points it invokes
(in order), the bytes on standard output, the text on standard error, and the
bytes written to `res.bin`. -/
structure Run where
  status : Status
  calls : List GuestCall
  stdout : List Byte
  stderr : String
  res_bin : Option (List Byte)

/-- `fprintf(stderr, msg); exit(1);` -/
def fatal (calls : List GuestCall) (stdout : List Byte) (msg : String) : Run :=
  { status := .exited 1, calls := calls, stdout := stdout, stderr := msg, res_bin := none }

/-- A run that stops without exiting (undefined behaviour or a blocked call). -/
def stopped (status : Status) (calls : List GuestCall) (stdout : List Byte) : Run :=
  { status := status, calls := calls, stdout := stdout, stderr := "", res_bin := none }

/-- Standard output of a sequence of bridge calls. -/
def logAll : List LogCall → Exec (List Byte)
  | [] => .ok []
  | c :: cs =>
    match ext_logging_log_version_1 c.memory c.level c.target_p c.message_p with
    | .undefined => .undefined
    | .ok line =>
      match logAll cs with
      | .undefined => .undefined
      | .ok out => .ok (line ++ out)

/-- `fread(memory + off, 1, data_len, f_data)` with `data_len` the size of the
file: the file's bytes stored from offset `off` on. -/
def fread (memory : Region) (off : Nat) (file : List Byte) : Exec Region :=
  if off + file.length ≤ memory.size then .ok (memory.write off file) else .undefined

/-- `fwrite(memory + off, 1, len, f_res)`: the bytes written to the file. -/
def fwrite (memory : Region) (off len : Nat) : Exec (List Byte) :=
  if off + len ≤ memory.size then .ok (memory.read off len) else .undefined

/-- Lines 79 to 92 of `main`: the validation call, decoding of its result, and
the write of the result bytes to `res.bin`. -/
def main_validate {σ : Type} (env : Env σ) (adder : Module σ) (g : GuestState σ)
    (data_len : Nat) (stdout : List Byte) : Run :=
  let offset := g.heap_base % 2 ^ 32
  let length := data_len % 2 ^ 32
  let calls := [GuestCall.init_pvf, GuestCall.validate_block offset length g.memory]
  let r := adder.validate_block offset length g
  match logAll r.logs with
  | .undefined => stopped .undefined calls stdout
  | .ok out =>
    match r.ret with
    | none => stopped .blocked calls (stdout ++ out)
    | some (g, res) =>
      let res_len := descLen res
      let res := descOff res
      if env.res_bin_writable = false then
        fatal calls (stdout ++ out) "Cannot open 'res.bin'\n"
      else
        match fwrite g.memory res res_len with
        | .undefined => stopped .undefined calls (stdout ++ out)
        | .ok result =>
          { status := .exited 0, calls := calls, stdout := stdout ++ out, stderr := "",
            res_bin := some result }

/-- Lines 66 to 77 of `main`: the initialisation call and the copy of
`data.bin` into the shared memory at the heap base. -/
def main_init {σ : Type} (env : Env σ) (adder : Module σ) : Run :=
  let r := adder.init_pvf adder.state
  match logAll r.logs with
  | .undefined => stopped .undefined [GuestCall.init_pvf] []
  | .ok out =>
    match r.ret with
    | none => stopped .blocked [GuestCall.init_pvf] out
    | some (g, _) =>
      match env.data_bin with
      | none => fatal [GuestCall.init_pvf] out "Cannot open 'data.bin'\n"
      | some f_data =>
        let data_len := f_data.length
        match fread g.memory g.heap_base f_data with
        | .undefined => stopped .undefined [GuestCall.init_pvf] out
        | .ok memory => main_validate env adder { g with memory := memory } data_len out

/-- The host program. -/
def main {σ : Type} (env : Env σ) : Run :=
  match env.adder with
  | none => fatal [] [] (env.dlerror ++ "\n")
  | some adder =>
    if adder.dlsym "memory" = false then
      fatal [] [] "Cannot resolve 'memory'\n"
    else if adder.dlsym "validate_block" = false then
      fatal [] [] "Cannot resolve 'validate_block'\n"
    else if adder.dlsym "init_pvf" = false then
      fatal [] [] "Cannot resolve 'pvf_init'\n"
    else if adder.dlsym "__heap_base" = false then
      fatal [] [] "Cannot resolve 'heap_base'\n"
    else
      main_init env adder

/-- The four names `main` passes to `dlsym`. -/
def requiredSymbols : List String := ["memory", "validate_block", "init_pvf", "__heap_base"]

/-- The call is an invocation of the initialiser. -/
def GuestCall.isInit : GuestCall → Bool
  | .init_pvf => true
  | .validate_block _ _ _ => false

/-- The call is an invocation of the validation entry point. -/
def GuestCall.isValidate : GuestCall → Bool
  | .init_pvf => false
  | .validate_block _ _ _ => true

/-! ## Concrete guests and inputs used in the examples -/

/-- A shared memory holding the texts `core` (offsets 0 to 3) and `started`
(offsets 4 to 10). -/
def logMemory : Region := Region.ofList (bytes "corestarted")

/-- A guest whose initialiser does nothing and whose validation function leaves
the memory untouched and returns its arguments as the descriptor. -/
def echoModule (memory : Region) (heap_base : Nat) : Module Unit :=
  { dlsym := fun _ => true
    state := { memory := memory, heap_base := heap_base, priv := () }
    init_pvf := fun g => { logs := [], ret := some (g, ()) }
    validate_block := fun offset length g =>
      { logs := [], ret := some (g, length * 2 ^ 32 + offset) } }

/-- An environment in which both files can be opened. -/
def echoEnv (memory : Region) (heap_base : Nat) (input : List Byte) : Env Unit :=
  { adder := some (echoModule memory heap_base), dlerror := "", data_bin := some input,
    res_bin_writable := true }

/-- A shared memory holding the text `core` (offsets 0 to 3) and the three bytes
`a`, newline, `b` (offsets 4 to 6). -/
def newlineMemory : Region := Region.ofList (bytes "corea\nb")

/-- The echo guest without the export `init_pvf`. -/
def noInitModule : Module Unit :=
  { echoModule (Region.ofList []) 0 with
    dlsym := fun name => name == "memory" || name == "validate_block" || name == "__heap_base" }

/-- The echo guest without the export `__heap_base`. -/
def noHeapBaseModule : Module Unit :=
  { echoModule (Region.ofList []) 0 with
    dlsym := fun name => name == "memory" || name == "validate_block" || name == "init_pvf" }

/-- An environment around a given module, with an empty `data.bin`. -/
def moduleEnv (adder : Module Unit) : Env Unit :=
  { adder := some adder, dlerror := "", data_bin := some [], res_bin_writable := true }

/-- An environment in which `./adder.so` cannot be opened. -/
def noModuleEnv : Env Unit :=
  { adder := none, dlerror := "./adder.so: cannot open shared object file",
    data_bin := some [], res_bin_writable := true }

/-- A region of the given size filled with zero bytes. -/
def zeroRegion (size : Nat) : Region := { size := size, byte := fun _ => 0 }

/-! ## Facts about the decoding -/

theorem descOff_eq_mod (d : Nat) : descOff d = d % 2 ^ 32 := by
  unfold descOff
  exact Nat.and_pow_two_sub_one_eq_mod d 32

theorem descLen_eq_div (d : Nat) : descLen d = d / 2 ^ 32 % 2 ^ 32 := by
  unfold descLen
  rw [Nat.shiftRight_eq_div_pow]

theorem decode_of_halves (offset length : Nat) (ho : offset < 2 ^ 32) (hl : length < 2 ^ 32) :
    descOff (length * 2 ^ 32 + offset) = offset ∧ descLen (length * 2 ^ 32 + offset) = length := by
  constructor
  · rw [descOff_eq_mod]; omega
  · rw [descLen_eq_div]; omega

/-- C1: round-trip law of the packed descriptor.  For every offset and length
below `2 ^ 32`, decoding the 64-bit value `length * 2 ^ 32 + offset` (length in
the high half, offset in the low half) gives back exactly `(offset, length)`. -/
theorem decode_pack (offset length : Nat) (ho : offset < 2 ^ 32) (hl : length < 2 ^ 32) :
    length * 2 ^ 32 + offset < 2 ^ 64 ∧
      descOff (length * 2 ^ 32 + offset) = offset ∧
      descLen (length * 2 ^ 32 + offset) = length ∧
      decode (length * 2 ^ 32 + offset) = (offset, length) := by
  obtain ⟨h1, h2⟩ := decode_of_halves offset length ho hl
  refine ⟨by omega, h1, h2, ?_⟩
  simp only [decode, h1, h2]

theorem decode_pack_witness :
    (100 : Nat) < 2 ^ 32 ∧ (5 : Nat) < 2 ^ 32 ∧ decode (5 * 2 ^ 32 + 100) = (100, 5) :=
  ⟨by decide, by decide, (decode_pack 100 5 (by decide) (by decide)).2.2.2⟩

/-- C10: decoding is total and lossless.  For every 64-bit value `d` the decoded
offset and length are below `2 ^ 32` and `length * 2 ^ 32 + offset = d`; hence two
64-bit descriptors with the same decoding are equal, and every pair of 32-bit
values is the decoding of a 64-bit descriptor. -/
theorem decode_lossless :
    (∀ d : Nat, d < 2 ^ 64 →
        descOff d < 2 ^ 32 ∧ descLen d < 2 ^ 32 ∧ descLen d * 2 ^ 32 + descOff d = d) ∧
      (∀ d e : Nat, d < 2 ^ 64 → e < 2 ^ 64 → decode d = decode e → d = e) ∧
      (∀ offset length : Nat, offset < 2 ^ 32 → length < 2 ^ 32 →
        ∃ d, d < 2 ^ 64 ∧ decode d = (offset, length)) := by
  have key : ∀ d : Nat, d < 2 ^ 64 →
      descOff d < 2 ^ 32 ∧ descLen d < 2 ^ 32 ∧ descLen d * 2 ^ 32 + descOff d = d := by
    intro d hd
    rw [descOff_eq_mod, descLen_eq_div]
    omega
  refine ⟨key, ?_, ?_⟩
  · intro d e hd he hde
    have h1 : descOff d = descOff e := congrArg Prod.fst hde
    have h2 : descLen d = descLen e := congrArg Prod.snd hde
    have kd := (key d hd).2.2
    have ke := (key e he).2.2
    rw [h1, h2] at kd
    omega
  · intro offset length ho hl
    obtain ⟨h1, h2⟩ := decode_of_halves offset length ho hl
    exact ⟨length * 2 ^ 32 + offset, by omega, by simp only [decode, h1, h2]⟩

theorem decode_lossless_witness :
    ((0x0000000500000064 : Nat) < 2 ^ 64 ∧ descOff 0x0000000500000064 < 2 ^ 32 ∧
      descLen 0x0000000500000064 < 2 ^ 32 ∧
      descLen 0x0000000500000064 * 2 ^ 32 + descOff 0x0000000500000064 = 0x0000000500000064) ∧
    (decode 0x0000000500000064 = decode (5 * 2 ^ 32 + 100) ∧
      0x0000000500000064 = 5 * 2 ^ 32 + 100) ∧
    (∃ d, d < 2 ^ 64 ∧ decode d = (100, 5)) :=
  ⟨⟨by decide, decode_lossless.1 0x0000000500000064 (by decide)⟩,
    ⟨by decide, decode_lossless.2.1 0x0000000500000064 (5 * 2 ^ 32 + 100) (by decide) (by decide)
      (by decide)⟩,
    decode_lossless.2.2 100 5 (by decide) (by decide)⟩

/-! ## Facts about the shared memory -/

theorem write_size (m : Region) (off : Nat) (data : List Byte) :
    (m.write off data).size = m.size := rfl

theorem write_byte_inside (m : Region) (off : Nat) (data : List Byte) (i : Nat)
    (hi : i < data.length) : (m.write off data).byte (off + i) = data[i] := by
  simp [Region.write, List.getElem?_eq_getElem hi]

theorem write_byte_outside (m : Region) (off : Nat) (data : List Byte) (i : Nat)
    (hi : i < off ∨ off + data.length ≤ i) : (m.write off data).byte i = m.byte i := by
  simp only [Region.write]
  split
  · rename_i h
    have : data.length ≤ i - off := by omega
    simp [List.getElem?_eq_none this]
  · rfl

theorem read_write_self (m : Region) (off : Nat) (data : List Byte) :
    (m.write off data).read off data.length = data := by
  apply List.ext_getElem
  · simp [Region.read]
  · intro i h1 h2
    simp [Region.read, write_byte_inside m off data i h2]

/-! ## Facts about the output loop -/

theorem putRange_ok (memory : Region) (p : Nat) (n : Nat) :
    ∀ i, i + n ≤ INT_MAX → p + i + n ≤ memory.size →
      putRange memory p i n = .ok (memory.read (p + i) n) := by
  induction n with
  | zero => intro i _ _; simp [putRange, Region.read]
  | succ n ih =>
    intro i h1 h2
    have hin : p + i < memory.size := by omega
    have hov : i + 1 ≤ INT_MAX := by omega
    have hrec := ih (i + 1) (by omega) (by omega)
    simp only [putRange, hin, hov, if_true, hrec]
    simp only [Region.read, List.range_succ_eq_map, List.map_cons, List.map_map]
    refine congrArg Exec.ok (congrArg₂ List.cons rfl (List.map_congr_left ?_))
    intro k _
    simp only [Function.comp]
    congr 1
    omega

theorem putRange_overflow (memory : Region) (p : Nat) (n : Nat) :
    ∀ i, 0 < n → INT_MAX < i + n → putRange memory p i n = .undefined := by
  induction n with
  | zero => intro i h; omega
  | succ n ih =>
    intro i _ h2
    simp only [putRange]
    split
    · split
      · rename_i hov
        have hn : 0 < n := by omega
        rw [ih (i + 1) hn (by omega)]
      · rfl
    · rfl

/-! ## Facts about the logging bridge -/

theorem levelSymbol_small (level : Nat) (h : level ≤ 6) :
    ∃ symbol, (bytes "0123456").get? level = some symbol ∧ levels.get? level = some symbol ∧
      levelSymbol level = .ok symbol ∧ symbol ≠ ascii '\n' := by
  interval_cases level <;> exact ⟨_, rfl, rfl, rfl, by decide⟩

theorem levelSymbol_large (level : Nat) (h : 8 ≤ level) : levelSymbol level = .undefined := by
  have hlen : levels.length ≤ level := by
    have : levels.length = 8 := by decide
    omega
  simp [levelSymbol, List.get?_eq_getElem?, List.getElem?_eq_none hlen]

theorem log_ok (memory : Region) (level target_p message_p : Nat) (symbol : Byte)
    (hs : levelSymbol level = .ok symbol)
    (ht : descLen target_p < 2 ^ 31)
    (htr : descOff target_p + descLen target_p ≤ memory.size)
    (hm : descLen message_p < 2 ^ 31)
    (hmr : descOff message_p + descLen message_p ≤ memory.size) :
    ext_logging_log_version_1 memory level target_p message_p =
      .ok ([ascii 'L', symbol, ascii ':', ascii ' ', ascii '['] ++
        memory.read (descOff target_p) (descLen target_p) ++ [ascii ']', ascii ' '] ++
        memory.read (descOff message_p) (descLen message_p) ++ [ascii '\n']) := by
  have h1 := putRange_ok memory (descOff target_p) (descLen target_p) 0
    (by simp only [INT_MAX]; omega) (by omega)
  have h2 := putRange_ok memory (descOff message_p) (descLen message_p) 0
    (by simp only [INT_MAX]; omega) (by omega)
  simp only [Nat.add_zero] at h1 h2
  simp only [ext_logging_log_version_1, hs, h1, h2]

theorem log_overflow (memory : Region) (level target_p message_p : Nat) (symbol : Byte)
    (hs : levelSymbol level = .ok symbol) (ht : 2 ^ 31 ≤ descLen target_p) :
    ext_logging_log_version_1 memory level target_p message_p = .undefined := by
  have hov := putRange_overflow memory (descOff target_p) (descLen target_p) 0
    (by omega) (by simp only [INT_MAX]; omega)
  simp only [ext_logging_log_version_1, hs, hov]

theorem levelSymbol_ok (level : Nat) (b : Byte) (h : levelSymbol level = .ok b) :
    levels.get? level = some b := by
  unfold levelSymbol at h
  cases hg : levels.get? level with
  | none => rw [hg] at h; exact absurd h (by simp)
  | some c => rw [hg] at h; exact congrArg some (Exec.ok.inj h)

/-- C5 (as amended): for every level in `0..6` and every target and message
descriptor whose byte range lies inside the shared memory and is shorter than
`2 ^ 31` bytes, the bridge writes exactly `L`, the symbol of that level (the
level-th of the seven symbols), `: [`, the target bytes, `] `, the message
bytes and one newline; the texts are taken by offset and length alone.  When
neither text holds a newline byte the output holds exactly one, so it is a
single line.  Level 2 with target `core` and message `started` gives
`L2: [core] started`. -/
theorem log_line_format :
    (∀ (memory : Region) (level target_p message_p : Nat), level ≤ 6 →
      descLen target_p < 2 ^ 31 → descOff target_p + descLen target_p ≤ memory.size →
      descLen message_p < 2 ^ 31 → descOff message_p + descLen message_p ≤ memory.size →
      ∃ symbol, (bytes "0123456").get? level = some symbol ∧
        ext_logging_log_version_1 memory level target_p message_p =
          .ok ([ascii 'L', symbol, ascii ':', ascii ' ', ascii '['] ++
            memory.read (descOff target_p) (descLen target_p) ++ [ascii ']', ascii ' '] ++
            memory.read (descOff message_p) (descLen message_p) ++ [ascii '\n']) ∧
        (ascii '\n' ∉ memory.read (descOff target_p) (descLen target_p) →
          ascii '\n' ∉ memory.read (descOff message_p) (descLen message_p) →
          ([ascii 'L', symbol, ascii ':', ascii ' ', ascii '['] ++
            memory.read (descOff target_p) (descLen target_p) ++ [ascii ']', ascii ' '] ++
            memory.read (descOff message_p) (descLen message_p) ++
            [ascii '\n']).count (ascii '\n') = 1)) ∧
      ext_logging_log_version_1 logMemory 2 (4 * 2 ^ 32 + 0) (7 * 2 ^ 32 + 4) =
        .ok (bytes "L2: [core] started\n") := by
  refine ⟨?_, by decide⟩
  intro memory level target_p message_p hl ht htr hm hmr
  obtain ⟨symbol, h1, _, h3, h4⟩ := levelSymbol_small level hl
  refine ⟨symbol, h1, log_ok memory level target_p message_p symbol h3 ht htr hm hmr, ?_⟩
  intro hnt hnm
  have c1 := List.count_eq_zero.mpr hnt
  have c2 := List.count_eq_zero.mpr hnm
  have c3 : (ascii 'L' == ascii '\n') = false := by decide
  have c4 : (ascii ':' == ascii '\n') = false := by decide
  have c5 : (ascii ' ' == ascii '\n') = false := by decide
  have c6 : (ascii '[' == ascii '\n') = false := by decide
  have c7 : (ascii ']' == ascii '\n') = false := by decide
  have c8 : (symbol == ascii '\n') = false := by simpa using h4
  simp [List.count_append, List.count_cons, c1, c2, c3, c4, c5, c6, c7, c8]

theorem log_line_format_witness :
    ext_logging_log_version_1 logMemory 6 (4 * 2 ^ 32 + 0) (7 * 2 ^ 32 + 4) =
        .ok (bytes "L6: [core] started\n") ∧
      (bytes "L6: [core] started\n").count (ascii '\n') = 1 := by
  obtain ⟨symbol, h1, h2, h3⟩ := log_line_format.1 logMemory 6 (4 * 2 ^ 32 + 0) (7 * 2 ^ 32 + 4)
    (by decide) (by decide) (by decide) (by decide) (by decide)
  have hs : symbol = ascii '6' := by
    have : (bytes "0123456").get? 6 = some (ascii '6') := by decide
    rw [this] at h1
    exact (Option.some.inj h1).symm
  subst hs
  have hcount := h3 (by decide) (by decide)
  rw [h2]
  exact ⟨by decide, hcount⟩

/-- C5, as stated, fails twice.  With target `core` and a message of the three
bytes `a`, newline, `b` (both inside the memory) the output holds two newline
bytes: it is two lines, not one.  With a target range of `2 ^ 31` bytes inside a
memory of that size the `int` loop counter overflows: the call is undefined. -/
theorem log_line_format_counterexample :
    (ext_logging_log_version_1 newlineMemory 2 (4 * 2 ^ 32 + 0) (3 * 2 ^ 32 + 4) =
        .ok (bytes "L2: [core] a\nb\n") ∧
      (bytes "L2: [core] a\nb\n").count (ascii '\n') = 2) ∧
    (descOff (2 ^ 31 * 2 ^ 32 + 0) + descLen (2 ^ 31 * 2 ^ 32 + 0) ≤ (zeroRegion (2 ^ 31)).size ∧
      descOff 0 + descLen 0 ≤ (zeroRegion (2 ^ 31)).size ∧
      ext_logging_log_version_1 (zeroRegion (2 ^ 31)) 2 (2 ^ 31 * 2 ^ 32 + 0) 0 = .undefined) := by
  exact ⟨⟨by decide, by decide⟩, by decide, by decide,
    log_overflow _ 2 _ 0 (ascii '2') (by decide) (by decide)⟩

/-- C6 (as amended): the bridge checks no level and reports no error.  Whenever
it emits a line, the symbol in it is `levels[level]`, read unconditionally.  For
level 7 that is the NUL byte ending the string literal, and the line is
emitted as usual; for a level of 8 or more the read is outside the array and
the call is undefined. -/
theorem log_level_unchecked :
    (∀ (memory : Region) (level target_p message_p : Nat) (out : List Byte),
      ext_logging_log_version_1 memory level target_p message_p = .ok out →
      ∃ symbol rest, levels.get? level = some symbol ∧ out = ascii 'L' :: symbol :: rest) ∧
    (∀ (memory : Region) (target_p message_p : Nat),
      descLen target_p < 2 ^ 31 → descOff target_p + descLen target_p ≤ memory.size →
      descLen message_p < 2 ^ 31 → descOff message_p + descLen message_p ≤ memory.size →
      ext_logging_log_version_1 memory 7 target_p message_p =
        .ok ([ascii 'L', 0, ascii ':', ascii ' ', ascii '['] ++
          memory.read (descOff target_p) (descLen target_p) ++ [ascii ']', ascii ' '] ++
          memory.read (descOff message_p) (descLen message_p) ++ [ascii '\n'])) ∧
    (∀ (memory : Region) (level target_p message_p : Nat), 8 ≤ level →
      ext_logging_log_version_1 memory level target_p message_p = .undefined) := by
  refine ⟨?_, ?_, ?_⟩
  · intro memory level target_p message_p out h
    simp only [ext_logging_log_version_1] at h
    cases hs : levelSymbol level with
    | undefined => rw [hs] at h; exact absurd h (by simp)
    | ok b =>
      cases ht : putRange memory (descOff target_p) 0 (descLen target_p) with
      | undefined => rw [hs, ht] at h; exact absurd h (by simp)
      | ok target =>
        cases hm : putRange memory (descOff message_p) 0 (descLen message_p) with
        | undefined => rw [hs, ht, hm] at h; exact absurd h (by simp)
        | ok message =>
          rw [hs, ht, hm] at h
          exact ⟨b, _, levelSymbol_ok level b hs, (Exec.ok.inj h).symm⟩
  · intro memory target_p message_p ht htr hm hmr
    exact log_ok memory 7 target_p message_p 0 (by decide) ht htr hm hmr
  · intro memory level target_p message_p h
    simp only [ext_logging_log_version_1, levelSymbol_large level h]

theorem log_level_unchecked_witness :
    (∃ symbol rest, levels.get? 7 = some symbol ∧
      ascii 'L' :: 0 :: bytes ": [core] started\n" = ascii 'L' :: symbol :: rest) ∧
    ext_logging_log_version_1 logMemory 8 (4 * 2 ^ 32 + 0) (7 * 2 ^ 32 + 4) = .undefined ∧
      ext_logging_log_version_1 logMemory 7 (0 * 2 ^ 32 + 11) (7 * 2 ^ 32 + 4) =
        .ok ([ascii 'L', 0, ascii ':', ascii ' ', ascii '['] ++
          logMemory.read (descOff (0 * 2 ^ 32 + 11)) (descLen (0 * 2 ^ 32 + 11)) ++
          [ascii ']', ascii ' '] ++
          logMemory.read (descOff (7 * 2 ^ 32 + 4)) (descLen (7 * 2 ^ 32 + 4)) ++ [ascii '\n']) :=
  ⟨log_level_unchecked.1 logMemory 7 (4 * 2 ^ 32 + 0) (7 * 2 ^ 32 + 4)
      (ascii 'L' :: 0 :: bytes ": [core] started\n") (by decide),
    log_level_unchecked.2.2 logMemory 8 (4 * 2 ^ 32 + 0) (7 * 2 ^ 32 + 4) (by decide),
    log_level_unchecked.2.1 logMemory (0 * 2 ^ 32 + 11) (7 * 2 ^ 32 + 4)
      (by decide) (by decide) (by decide) (by decide)⟩

/-- C6, as stated, fails at level 7, which is outside `0..6`: the call is not
rejected, a line is emitted, and its symbol is the entry of `levels` at index 7,
past the seven symbols. -/
theorem log_level_counterexample :
    ¬ (7 ≤ 6) ∧ (bytes "0123456").length = 7 ∧ levels.get? 7 = some 0 ∧
      ext_logging_log_version_1 logMemory 7 (4 * 2 ^ 32 + 0) (7 * 2 ^ 32 + 4) =
        .ok (ascii 'L' :: 0 :: bytes ": [core] started\n") := by
  refine ⟨by decide, by decide, by decide, by decide⟩

/-! ## Facts about `main` -/

theorem main_loaded {σ : Type} (env : Env σ) (adder : Module σ)
    (hadder : env.adder = some adder)
    (hsym : ∀ name ∈ requiredSymbols, adder.dlsym name = true) :
    main env = main_init env adder := by
  have h1 := hsym "memory" (by simp [requiredSymbols])
  have h2 := hsym "validate_block" (by simp [requiredSymbols])
  have h3 := hsym "init_pvf" (by simp [requiredSymbols])
  have h4 := hsym "__heap_base" (by simp [requiredSymbols])
  simp [main, hadder, h1, h2, h3, h4]

theorem main_not_loaded {σ : Type} (env : Env σ) (adder : Module σ)
    (hadder : env.adder = some adder)
    (hmiss : ∃ name ∈ requiredSymbols, adder.dlsym name = false) :
    ∃ name, main env = fatal [] [] ("Cannot resolve '" ++ name ++ "'\n") := by
  have hsome : adder.dlsym "memory" = false ∨ adder.dlsym "validate_block" = false ∨
      adder.dlsym "init_pvf" = false ∨ adder.dlsym "__heap_base" = false := by
    obtain ⟨name, hmem, hf⟩ := hmiss
    simp only [requiredSymbols, List.mem_cons, List.mem_singleton, List.not_mem_nil,
      or_false] at hmem
    rcases hmem with h | h | h | h <;> subst h <;> simp [hf]
  simp only [main, hadder]
  by_cases h1 : adder.dlsym "memory" = false
  · exact ⟨"memory", by simp [h1]⟩
  · by_cases h2 : adder.dlsym "validate_block" = false
    · exact ⟨"validate_block", by simp [h1, h2]⟩
    · by_cases h3 : adder.dlsym "init_pvf" = false
      · exact ⟨"pvf_init", by simp [h1, h2, h3]⟩
      · by_cases h4 : adder.dlsym "__heap_base" = false
        · exact ⟨"heap_base", by simp [h1, h2, h3, h4]⟩
        · exfalso
          rcases hsome with h | h | h | h
          · exact h1 h
          · exact h2 h
          · exact h3 h
          · exact h4 h

theorem main_reaches_validate {σ : Type} (env : Env σ) (adder : Module σ) (g : GuestState σ)
    (out input : List Byte) (len : Nat)
    (hadder : env.adder = some adder)
    (hsym : ∀ name ∈ requiredSymbols, adder.dlsym name = true)
    (hlogs : logAll (adder.init_pvf adder.state).logs = .ok out)
    (hret : (adder.init_pvf adder.state).ret = some (g, ()))
    (hdata : env.data_bin = some input)
    (hlen : input.length = len)
    (hfit : g.heap_base + len ≤ g.memory.size) :
    main env = main_validate env adder { g with memory := g.memory.write g.heap_base input }
      len out := by
  rw [main_loaded env adder hadder hsym]
  simp [main_init, hlogs, hret, hdata, fread, hfit, hlen]

theorem main_validate_calls {σ : Type} (env : Env σ) (adder : Module σ) (g : GuestState σ)
    (data_len : Nat) (stdout : List Byte) :
    (main_validate env adder g data_len stdout).calls =
      [GuestCall.init_pvf,
        GuestCall.validate_block (g.heap_base % 2 ^ 32) (data_len % 2 ^ 32) g.memory] := by
  simp only [main_validate]
  split
  · rfl
  · split
    · rfl
    · split
      · rfl
      · split <;> rfl

theorem main_validate_stderr {σ : Type} (env : Env σ) (adder : Module σ) (g : GuestState σ)
    (data_len : Nat) (stdout : List Byte) :
    (main_validate env adder g data_len stdout).stderr = "" ∨
      (main_validate env adder g data_len stdout).stderr = "Cannot open 'res.bin'\n" := by
  simp only [main_validate]
  split
  · exact Or.inl rfl
  · split
    · exact Or.inl rfl
    · split
      · exact Or.inr rfl
      · split <;> exact Or.inl rfl

theorem main_init_calls {σ : Type} (env : Env σ) (adder : Module σ) :
    (main_init env adder).calls = [GuestCall.init_pvf] ∨
      ∃ g offset length memory, (adder.init_pvf adder.state).ret = some (g, ()) ∧
        (main_init env adder).calls =
          [GuestCall.init_pvf, GuestCall.validate_block offset length memory] := by
  simp only [main_init]
  split
  · exact Or.inl rfl
  · split
    · exact Or.inl rfl
    · rename_i g u hret
      split
      · exact Or.inl rfl
      · split
        · exact Or.inl rfl
        · exact Or.inr ⟨g, _, _, _, hret, main_validate_calls _ _ _ _ _⟩

/-- C3: input placement.  When the module is loaded, the initialiser has
returned leaving a shared memory of size `S` and heap base `h`, and `data.bin`
holds an input of length `L` with `h + L ≤ S`, the copy succeeds and the memory
handed to the validation call has the same size, holds the input byte for byte
at `[h, h + L)`, and is unchanged elsewhere. -/
theorem input_placement {σ : Type} (env : Env σ) (adder : Module σ) (g : GuestState σ)
    (out input : List Byte)
    (hadder : env.adder = some adder)
    (hsym : ∀ name ∈ requiredSymbols, adder.dlsym name = true)
    (hlogs : logAll (adder.init_pvf adder.state).logs = .ok out)
    (hret : (adder.init_pvf adder.state).ret = some (g, ()))
    (hdata : env.data_bin = some input)
    (hfit : g.heap_base + input.length ≤ g.memory.size) :
    ∃ offset length memory,
      fread g.memory g.heap_base input = .ok memory ∧
      (main env).calls = [GuestCall.init_pvf, GuestCall.validate_block offset length memory] ∧
      memory.size = g.memory.size ∧
      memory.read g.heap_base input.length = input ∧
      (∀ (i : Nat) (hi : i < input.length), memory.byte (g.heap_base + i) = input[i]) ∧
      (∀ i, i < g.heap_base ∨ g.heap_base + input.length ≤ i →
        memory.byte i = g.memory.byte i) := by
  refine ⟨g.heap_base % 2 ^ 32, input.length % 2 ^ 32, g.memory.write g.heap_base input,
    by simp [fread, hfit], ?_, rfl, read_write_self _ _ _, ?_, ?_⟩
  · rw [main_reaches_validate env adder g out input input.length hadder hsym hlogs hret hdata
      rfl hfit, main_validate_calls]
  · intro i hi
    exact write_byte_inside _ _ _ i hi
  · intro i hi
    exact write_byte_outside _ _ _ i hi

theorem input_placement_witness :
    ∃ offset length memory,
      (main (echoEnv (zeroRegion 200) 100 (bytes "hello"))).calls =
        [GuestCall.init_pvf, GuestCall.validate_block offset length memory] ∧
      memory.read 100 5 = bytes "hello" := by
  obtain ⟨offset, length, memory, _, h2, _, h4, _⟩ :=
    input_placement (echoEnv (zeroRegion 200) 100 (bytes "hello"))
      (echoModule (zeroRegion 200) 100) (echoModule (zeroRegion 200) 100).state [] (bytes "hello")
      rfl (by decide) rfl rfl rfl (by decide)
  exact ⟨offset, length, memory, h2, h4⟩

/-- C4 (as amended): once loading has succeeded, the initialiser has returned
and the input has been copied to the heap base, the validation entry point is
called with the heap-base word reduced modulo `2 ^ 32` and the input length
reduced modulo `2 ^ 32`.  When both are below `2 ^ 32` these are the heap base
(the offset the input was written at) and the length of the input.  An empty
input gives a call with length 0 and no failure to open `data.bin`. -/
theorem validation_arguments {σ : Type} (env : Env σ) (adder : Module σ) (g : GuestState σ)
    (out input : List Byte)
    (hadder : env.adder = some adder)
    (hsym : ∀ name ∈ requiredSymbols, adder.dlsym name = true)
    (hlogs : logAll (adder.init_pvf adder.state).logs = .ok out)
    (hret : (adder.init_pvf adder.state).ret = some (g, ()))
    (hdata : env.data_bin = some input)
    (hfit : g.heap_base + input.length ≤ g.memory.size) :
    ∃ memory, fread g.memory g.heap_base input = .ok memory ∧
      (main env).calls = [GuestCall.init_pvf,
        GuestCall.validate_block (g.heap_base % 2 ^ 32) (input.length % 2 ^ 32) memory] ∧
      (g.heap_base < 2 ^ 32 → input.length < 2 ^ 32 →
        (main env).calls = [GuestCall.init_pvf,
          GuestCall.validate_block g.heap_base input.length memory]) ∧
      (input = [] →
        (main env).calls = [GuestCall.init_pvf,
          GuestCall.validate_block (g.heap_base % 2 ^ 32) 0 memory] ∧
        (main env).stderr ≠ "Cannot open 'data.bin'\n") := by
  have hmain := main_reaches_validate env adder g out input input.length hadder hsym hlogs hret
    hdata rfl hfit
  have hcalls : (main env).calls = [GuestCall.init_pvf,
      GuestCall.validate_block (g.heap_base % 2 ^ 32) (input.length % 2 ^ 32)
        (g.memory.write g.heap_base input)] := by
    rw [hmain, main_validate_calls]
  refine ⟨g.memory.write g.heap_base input, by simp [fread, hfit], hcalls, ?_, ?_⟩
  · intro hh hl
    rw [hcalls, Nat.mod_eq_of_lt hh, Nat.mod_eq_of_lt hl]
  · intro hempty
    refine ⟨?_, ?_⟩
    · rw [hcalls, hempty]
      rfl
    · rw [hmain]
      rcases main_validate_stderr env adder
        { g with memory := g.memory.write g.heap_base input } input.length out with h | h
      · rw [h]; decide
      · rw [h]; decide

theorem validation_arguments_witness :
    ∃ memory, (main (echoEnv (zeroRegion 200) 100 [])).calls =
        [GuestCall.init_pvf, GuestCall.validate_block 100 0 memory] ∧
      (main (echoEnv (zeroRegion 200) 100 [])).stderr ≠ "Cannot open 'data.bin'\n" := by
  obtain ⟨memory, _, _, h3, h4⟩ :=
    validation_arguments (echoEnv (zeroRegion 200) 100 [])
      (echoModule (zeroRegion 200) 100) (echoModule (zeroRegion 200) 100).state [] []
      rfl (by decide) rfl rfl rfl (by decide)
  exact ⟨memory, h3 (by decide) (by decide), (h4 rfl).2⟩

/-- C4, as stated, fails twice.  With the heap-base word `2 ^ 32 + 100` the
input `hello` is written at offset `2 ^ 32 + 100` while the call receives the
offset 100, where the memory does not hold the input.  With an input of
`2 ^ 32` bytes the call receives the length 0. -/
theorem validation_arguments_counterexample :
    (∃ memory, (main (echoEnv (zeroRegion (2 ^ 32 + 200)) (2 ^ 32 + 100) (bytes "hello"))).calls =
        [GuestCall.init_pvf, GuestCall.validate_block 100 5 memory] ∧
      memory.read (2 ^ 32 + 100) 5 = bytes "hello" ∧ memory.read 100 5 ≠ bytes "hello") ∧
    (∃ memory,
      (main (echoEnv (zeroRegion (2 ^ 32 + 200)) 100 (List.replicate (2 ^ 32) 0))).calls =
        [GuestCall.init_pvf, GuestCall.validate_block 100 0 memory] ∧
      (List.replicate (2 ^ 32) (0 : Byte)).length = 2 ^ 32) := by
  refine ⟨⟨(zeroRegion (2 ^ 32 + 200)).write (2 ^ 32 + 100) (bytes "hello"), rfl,
    by decide, by decide⟩,
    ⟨(zeroRegion (2 ^ 32 + 200)).write 100 (List.replicate (2 ^ 32) 0), ?_,
      List.length_replicate _ _⟩⟩
  rw [main_reaches_validate (echoEnv (zeroRegion (2 ^ 32 + 200)) 100 (List.replicate (2 ^ 32) 0))
    (echoModule (zeroRegion (2 ^ 32 + 200)) 100)
    (echoModule (zeroRegion (2 ^ 32 + 200)) 100).state [] (List.replicate (2 ^ 32) 0) (2 ^ 32)
    rfl (by decide) rfl rfl rfl (List.length_replicate _ _) (by decide),
    main_validate_calls]
  rfl

theorem main_calls_loaded {σ : Type} (env : Env σ) (hcalls : (main env).calls ≠ []) :
    ∃ adder, env.adder = some adder ∧ ∀ name ∈ requiredSymbols, adder.dlsym name = true := by
  cases hadder : env.adder with
  | none =>
    exfalso
    apply hcalls
    simp [main, hadder, fatal]
  | some adder =>
    refine ⟨adder, rfl, ?_⟩
    by_contra hne
    have hmiss : ∃ name ∈ requiredSymbols, adder.dlsym name = false := by
      simpa using hne
    obtain ⟨name, h⟩ := main_not_loaded env adder hadder hmiss
    apply hcalls
    rw [h]
    rfl

/-- C7: loader gating.  For every loaded module in which one of the four names
`main` looks up does not resolve, `main` exits with code 1 and a message
`Cannot resolve '...'` on standard error, having invoked no guest entry point
and written no result; so does in particular a module missing only the
initialiser.  Conversely, whenever a guest entry point is invoked, the module
was loaded and all four names resolved. -/
theorem loader_gating {σ : Type} :
    (∀ (env : Env σ) (adder : Module σ), env.adder = some adder →
      (∃ name ∈ requiredSymbols, adder.dlsym name = false) →
      (main env).status = .exited 1 ∧ (main env).calls = [] ∧ (main env).res_bin = none ∧
        ∃ name, (main env).stderr = "Cannot resolve '" ++ name ++ "'\n") ∧
    (∀ (env : Env σ) (adder : Module σ), env.adder = some adder →
      adder.dlsym "memory" = true → adder.dlsym "validate_block" = true →
      adder.dlsym "__heap_base" = true → adder.dlsym "init_pvf" = false →
      (main env).status = .exited 1 ∧ (main env).calls = [] ∧
        (main env).stderr = "Cannot resolve 'pvf_init'\n") ∧
    (∀ env : Env σ, (main env).calls ≠ [] →
      ∃ adder, env.adder = some adder ∧ ∀ name ∈ requiredSymbols, adder.dlsym name = true) := by
  refine ⟨?_, ?_, ?_⟩
  · intro env adder hadder hmiss
    obtain ⟨name, h⟩ := main_not_loaded env adder hadder hmiss
    rw [h]
    exact ⟨rfl, rfl, rfl, name, rfl⟩
  · intro env adder hadder h1 h2 h4 h3
    simp [main, hadder, h1, h2, h3, fatal]
  · intro env hcalls
    exact main_calls_loaded env hcalls

theorem loader_gating_witness :
    ((main (moduleEnv noHeapBaseModule)).status = .exited 1 ∧
      (main (moduleEnv noHeapBaseModule)).calls = []) ∧
    ((main (moduleEnv noInitModule)).status = .exited 1 ∧
      (main (moduleEnv noInitModule)).calls = [] ∧
      (main (moduleEnv noInitModule)).stderr = "Cannot resolve 'pvf_init'\n") ∧
    (∃ adder, (echoEnv (zeroRegion 200) 100 (bytes "hello")).adder = some adder ∧
      ∀ name ∈ requiredSymbols, adder.dlsym name = true) :=
  have h := loader_gating.1 (moduleEnv noHeapBaseModule) noHeapBaseModule rfl
    ⟨"__heap_base", by decide, by decide⟩
  ⟨⟨h.1, h.2.1⟩,
    loader_gating.2.1 (moduleEnv noInitModule) noInitModule rfl (by decide) (by decide)
      (by decide) (by decide),
    loader_gating.2.2 (echoEnv (zeroRegion 200) 100 (bytes "hello"))
      (fun h => List.noConfusion h)⟩

/-- C8 fails on the code: with only `init_pvf` unresolved the diagnostic names
`pvf_init`, and with only `__heap_base` unresolved it names `heap_base`; in both
cases the name in the message is not the name that was looked up. -/
theorem diagnostic_names_other_symbol :
    (noInitModule.dlsym "init_pvf" = false ∧
      (∀ name ∈ requiredSymbols, name ≠ "init_pvf" → noInitModule.dlsym name = true) ∧
      (main (moduleEnv noInitModule)).stderr = "Cannot resolve 'pvf_init'\n" ∧
      (main (moduleEnv noInitModule)).stderr ≠ "Cannot resolve 'init_pvf'\n" ∧
      "pvf_init" ∉ requiredSymbols) ∧
    (noHeapBaseModule.dlsym "__heap_base" = false ∧
      (∀ name ∈ requiredSymbols, name ≠ "__heap_base" → noHeapBaseModule.dlsym name = true) ∧
      (main (moduleEnv noHeapBaseModule)).stderr = "Cannot resolve 'heap_base'\n" ∧
      (main (moduleEnv noHeapBaseModule)).stderr ≠ "Cannot resolve '__heap_base'\n" ∧
      "heap_base" ∉ requiredSymbols) := by
  refine ⟨⟨by decide, by decide, by decide, by decide, by decide⟩,
    ⟨by decide, by decide, by decide, by decide, by decide⟩⟩

/-- C9 (as amended): in every run in which the module is loaded and all four
names resolve, the initialiser is invoked exactly once, first, and with no
argument, and the validation entry point at most once, after it; in every other
run no guest entry point is invoked.  The validation entry point is invoked only
in runs in which the initialiser has returned. -/
theorem call_order {σ : Type} (env : Env σ) :
    ((∃ adder, env.adder = some adder ∧ ∀ name ∈ requiredSymbols, adder.dlsym name = true) →
      ((main env).calls = [GuestCall.init_pvf] ∨
        ∃ offset length memory, (main env).calls =
          [GuestCall.init_pvf, GuestCall.validate_block offset length memory]) ∧
      (main env).calls.countP GuestCall.isInit = 1 ∧
      (main env).calls.head? = some GuestCall.init_pvf ∧
      (main env).calls.countP GuestCall.isValidate ≤ 1) ∧
    ((¬ ∃ adder, env.adder = some adder ∧ ∀ name ∈ requiredSymbols, adder.dlsym name = true) →
      (main env).calls = []) ∧
    ((main env).calls.countP GuestCall.isValidate ≠ 0 →
      ∃ adder g, env.adder = some adder ∧ (adder.init_pvf adder.state).ret = some (g, ())) := by
  have hloaded : ∀ adder, env.adder = some adder →
      (∀ name ∈ requiredSymbols, adder.dlsym name = true) →
      (main env).calls = [GuestCall.init_pvf] ∨
        ∃ g offset length memory, (adder.init_pvf adder.state).ret = some (g, ()) ∧
          (main env).calls =
            [GuestCall.init_pvf, GuestCall.validate_block offset length memory] := by
    intro adder hadder hsym
    rw [main_loaded env adder hadder hsym]
    exact main_init_calls env adder
  have hnot : (¬ ∃ adder, env.adder = some adder ∧
      ∀ name ∈ requiredSymbols, adder.dlsym name = true) → (main env).calls = [] := by
    intro hno
    by_contra hne
    exact hno (main_calls_loaded env hne)
  refine ⟨?_, hnot, ?_⟩
  · rintro ⟨adder, hadder, hsym⟩
    rcases hloaded adder hadder hsym with h | ⟨g, offset, length, memory, _, h⟩
    · rw [h]
      exact ⟨Or.inl rfl, rfl, rfl, Nat.zero_le 1⟩
    · rw [h]
      exact ⟨Or.inr ⟨offset, length, memory, rfl⟩, rfl, rfl, Nat.le_refl 1⟩
  · intro hv
    by_cases hl : ∃ adder, env.adder = some adder ∧
        ∀ name ∈ requiredSymbols, adder.dlsym name = true
    · obtain ⟨adder, hadder, hsym⟩ := hl
      rcases hloaded adder hadder hsym with h | ⟨g, offset, length, memory, hret, _⟩
      · rw [h] at hv
        exact absurd rfl hv
      · exact ⟨adder, g, hadder, hret⟩
    · rw [hnot hl] at hv
      exact absurd rfl hv

theorem call_order_witness :
    ((main (echoEnv (zeroRegion 200) 100 (bytes "hello"))).calls.countP GuestCall.isInit = 1 ∧
      (main (echoEnv (zeroRegion 200) 100 (bytes "hello"))).calls.countP GuestCall.isValidate
        ≤ 1) ∧
    (main (moduleEnv noInitModule)).calls = [] ∧
    (∃ adder g, (echoEnv (zeroRegion 200) 100 (bytes "hello")).adder = some adder ∧
      (adder.init_pvf adder.state).ret = some (g, ())) :=
  have h := (call_order (echoEnv (zeroRegion 200) 100 (bytes "hello"))).1
    ⟨echoModule (zeroRegion 200) 100, rfl, by decide⟩
  ⟨⟨h.2.1, h.2.2.2⟩,
    (call_order (moduleEnv noInitModule)).2.1
      (fun ⟨adder, hadder, hsym⟩ => by
        have hm : noInitModule = adder := Option.some.inj hadder
        subst hm
        exact absurd (hsym "init_pvf" (by decide)) (by decide)),
    (call_order (echoEnv (zeroRegion 200) 100 (bytes "hello"))).2.2 (by decide)⟩

/-- C9, as stated, fails in a run in which `./adder.so` cannot be opened: the
run exits with code 1 and the initialiser is invoked zero times, not once. -/
theorem call_order_counterexample :
    (main noModuleEnv).status = .exited 1 ∧ (main noModuleEnv).calls = [] ∧
      (main noModuleEnv).calls.countP GuestCall.isInit = 0 := by
  refine ⟨by decide, rfl, rfl⟩

end Wasm2Native
